import Mathlib

/-!
Verification development for the workflow execution engine of the
repository (src/ui/workflows.py, together with the tool invocation layer in
src/ui/tool_workshop.py).

The embedding is shallow and executable:

* `JValue` models the JSON-compatible Python values that flow through
  bindings and step outputs.  Number literals are modelled as integers
  (the engine and all properties below only ever exercise integer
  numerals; float literals are outside the model and are rejected by the
  parser below).
* `json_loads` models `json.loads` on that fragment: a recursive-descent
  parser over the character list with an explicit fuel argument; the fuel
  supplied by `json_loads` is always sufficient, so the function is total
  and executable.
* dictionaries (`JDict`) are insertion-ordered association lists with
  Python dict semantics: `dictGet` returns the stored value or None
  (modelled as `JValue.null`) when the key is absent, `dictSet` updates in
  place keeping the first-insertion position.
* `execute_tool` models `ToolWorkshopInterface.execute_tool`: a missing
  callable or a raising callable is converted into an error string, never
  an exception.
* `execSteps` / `execute_workflow` model `WorkflowsInterface._execute_workflow`
  step by step.  The `ExecResult` record carries, besides the returned
  triple `(ok, step_results, final_output)`, two pieces of observability
  instrumentation that do not influence the computation: `calls`, the
  ordered list of tool invocations performed (the mock-registry call log
  used by the testable properties of the specification), and
  `failedStep`, the 0-based index of the step at which the run halted.
-/

namespace Workflows

/-- JSON-compatible value, as produced by the json module of Python on the
integer fragment.  Objects are insertion-ordered association lists. -/
inductive JValue where
  | null
  | bool (b : Bool)
  | num (n : Int)
  | str (s : String)
  | arr (elems : List JValue)
  | obj (fields : List (String × JValue))

/-- Insertion-ordered dictionary with string keys, modelling a Python dict. -/
abbrev JDict := List (String × JValue)

/-- Membership test, modelling the Python expression `k in d`. -/
def dictHasKey (d : JDict) (k : String) : Bool :=
  d.any (fun p => p.fst == k)

/-- Python `d.get(k)`: the stored value, or None (modelled `JValue.null`)
when the key is absent. -/
def dictGet (d : JDict) (k : String) : JValue :=
  match d.find? (fun p => p.fst == k) with
  | some p => p.snd
  | none => JValue.null

/-- Python `d[k] = v`: replace the value in place when the key exists
(keeping its position), otherwise append the new entry. -/
def dictSet (d : JDict) (k : String) (v : JValue) : JDict :=
  match d with
  | [] => [(k, v)]
  | (k0, v0) :: rest => if k0 == k then (k, v) :: rest else (k0, v0) :: dictSet rest k v

/- Character constants used by the JSON grammar. -/

def chQuote : Char := Char.ofNat 34
def chBackslash : Char := Char.ofNat 92
def chLBrace : Char := Char.ofNat 123
def chRBrace : Char := Char.ofNat 125
def chLBracket : Char := Char.ofNat 91
def chRBracket : Char := Char.ofNat 93
def chComma : Char := Char.ofNat 44
def chColon : Char := Char.ofNat 58
def chMinus : Char := Char.ofNat 45
def chSpace : Char := Char.ofNat 32
def chTab : Char := Char.ofNat 9
def chLF : Char := Char.ofNat 10
def chCR : Char := Char.ofNat 13

/-- JSON whitespace characters. -/
def isJsonWs (c : Char) : Bool :=
  c = chSpace || c = chTab || c = chLF || c = chCR

/-- Drops leading JSON whitespace. -/
def skipWs : List Char → List Char
  | [] => []
  | c :: cs => if isJsonWs c then skipWs cs else c :: cs

/-- Splits a leading run of decimal digits from the input. -/
def takeDigits : List Char → (List Char × List Char)
  | [] => ([], [])
  | c :: cs =>
    if c.isDigit then
      let p := takeDigits cs
      (c :: p.fst, p.snd)
    else ([], c :: cs)

/-- Decimal value of a digit list. -/
def digitsToNat (ds : List Char) : Nat :=
  ds.foldl (fun acc c => acc * 10 + (c.toNat - 48)) 0

/-- Parses the unsigned integer part of a JSON number: a single 0, or a
nonzero digit followed by more digits. -/
def parseNumberTail : List Char → Option (Nat × List Char)
  | [] => none
  | c :: cs =>
    if c = Char.ofNat 48 then some (0, cs)
    else if c.isDigit then
      let p := takeDigits (c :: cs)
      some (digitsToNat p.fst, p.snd)
    else none

/-- True when the character would continue a number into a float or
exponent form (outside the integer fragment modelled here). -/
def isNumCont (c : Char) : Bool :=
  c = Char.ofNat 46 || c = Char.ofNat 101 || c = Char.ofNat 69

/-- True when the head of the input would continue a number literal. -/
def headIsNumCont : List Char → Bool
  | [] => false
  | c :: _ => isNumCont c

/-- Parses a JSON integer literal with optional minus sign; float and
exponent continuations are outside the modelled fragment. -/
def parseNumber (cs : List Char) : Option (Int × List Char) :=
  match cs with
  | [] => none
  | c :: rest =>
    if c = chMinus then
      match parseNumberTail rest with
      | some (n, rest2) => if headIsNumCont rest2 then none else some (-(n : Int), rest2)
      | none => none
    else
      match parseNumberTail cs with
      | some (n, rest2) => if headIsNumCont rest2 then none else some ((n : Int), rest2)
      | none => none

/-- Hexadecimal digit value. -/
def hexVal (c : Char) : Option Nat :=
  let n := c.toNat
  if 48 ≤ n && n ≤ 57 then some (n - 48)
  else if 97 ≤ n && n ≤ 102 then some (n - 87)
  else if 65 ≤ n && n ≤ 70 then some (n - 55)
  else none

/-- Parses the body of a JSON string after the opening quote, handling the
standard escape sequences; control characters are invalid, as in the json
module of Python. -/
def parseStringTail : Nat → List Char → String → Option (String × List Char)
  | 0, _, _ => none
  | Nat.succ fuel, cs, acc =>
    match cs with
    | [] => none
    | c :: rest =>
      if c = chQuote then some (acc, rest)
      else if c = chBackslash then
        match rest with
        | [] => none
        | e :: rest2 =>
          if e = chQuote then parseStringTail fuel rest2 (acc.push chQuote)
          else if e = chBackslash then parseStringTail fuel rest2 (acc.push chBackslash)
          else if e = Char.ofNat 47 then parseStringTail fuel rest2 (acc.push (Char.ofNat 47))
          else if e = Char.ofNat 98 then parseStringTail fuel rest2 (acc.push (Char.ofNat 8))
          else if e = Char.ofNat 102 then parseStringTail fuel rest2 (acc.push (Char.ofNat 12))
          else if e = Char.ofNat 110 then parseStringTail fuel rest2 (acc.push chLF)
          else if e = Char.ofNat 114 then parseStringTail fuel rest2 (acc.push chCR)
          else if e = Char.ofNat 116 then parseStringTail fuel rest2 (acc.push chTab)
          else if e = Char.ofNat 117 then
            match rest2 with
            | h1 :: h2 :: h3 :: h4 :: rest3 =>
              match hexVal h1, hexVal h2, hexVal h3, hexVal h4 with
              | some a, some b, some c3, some d =>
                parseStringTail fuel rest3 (acc.push (Char.ofNat (((a * 16 + b) * 16 + c3) * 16 + d)))
              | _, _, _, _ => none
            | _ => none
          else none
      else if c.toNat < 32 then none
      else parseStringTail fuel rest (acc.push c)

/-- Matches a keyword such as true, false, null at the head of the input. -/
def stripKeyword : List Char → List Char → Option (List Char)
  | [], rest => some rest
  | _ :: _, [] => none
  | k :: ks, c :: rest => if c = k then stripKeyword ks rest else none

mutual

/-- Parses one JSON value; the fuel bounds the recursion depth and is
always supplied large enough by `json_loads`. -/
def parseValue : Nat → List Char → Option (JValue × List Char)
  | 0, _ => none
  | Nat.succ fuel, cs =>
    match skipWs cs with
    | [] => none
    | c :: rest =>
      if c = chQuote then
        match parseStringTail (rest.length + 1) rest "" with
        | some (s, rest2) => some (JValue.str s, rest2)
        | none => none
      else if c = chLBrace then
        match skipWs rest with
        | [] => none
        | d :: rest2 =>
          if d = chRBrace then some (JValue.obj [], rest2)
          else parseMembers fuel (d :: rest2) []
      else if c = chLBracket then
        match skipWs rest with
        | [] => none
        | d :: rest2 =>
          if d = chRBracket then some (JValue.arr [], rest2)
          else parseItems fuel (d :: rest2) []
      else
        match stripKeyword ("true".data) (c :: rest) with
        | some rest2 => some (JValue.bool true, rest2)
        | none =>
          match stripKeyword ("false".data) (c :: rest) with
          | some rest2 => some (JValue.bool false, rest2)
          | none =>
            match stripKeyword ("null".data) (c :: rest) with
            | some rest2 => some (JValue.null, rest2)
            | none =>
              match parseNumber (c :: rest) with
              | some (n, rest2) => some (JValue.num n, rest2)
              | none => none

/-- Parses the members of a JSON object after the opening brace; duplicate
keys keep the last value at the first-insertion position, as Python dict
literals do. -/
def parseMembers : Nat → List Char → JDict → Option (JValue × List Char)
  | 0, _, _ => none
  | Nat.succ fuel, cs, acc =>
    match skipWs cs with
    | [] => none
    | c :: rest =>
      if c = chQuote then
        match parseStringTail (rest.length + 1) rest "" with
        | some (k, rest2) =>
          match skipWs rest2 with
          | [] => none
          | d :: rest3 =>
            if d = chColon then
              match parseValue fuel rest3 with
              | some (v, rest4) =>
                match skipWs rest4 with
                | [] => none
                | e :: rest5 =>
                  if e = chComma then parseMembers fuel rest5 (dictSet acc k v)
                  else if e = chRBrace then some (JValue.obj (dictSet acc k v), rest5)
                  else none
              | none => none
            else none
        | none => none
      else none

/-- Parses the items of a JSON array after the opening bracket. -/
def parseItems : Nat → List Char → List JValue → Option (JValue × List Char)
  | 0, _, _ => none
  | Nat.succ fuel, cs, acc =>
    match parseValue fuel cs with
    | some (v, rest) =>
      match skipWs rest with
      | [] => none
      | e :: rest2 =>
        if e = chComma then parseItems fuel rest2 (acc ++ [v])
        else if e = chRBracket then some (JValue.arr (acc ++ [v]), rest2)
        else none
    | none => none

end

/-- Models `json.loads` on the integer fragment: parse one value and then
require that only whitespace remains. -/
def json_loads (s : String) : Option JValue :=
  match parseValue (2 * s.length + 16) s.data with
  | some (v, rest) => if skipWs rest = [] then some v else none
  | none => none

/-- Step output construction from the raw tool result, from
src/ui/workflows.py lines 120 to 125: a JSON object stands as is, any
other parsed value or an unparseable string is wrapped under the key
result. -/
def parseStepOutput (s : String) : JDict :=
  match json_loads s with
  | some (JValue.obj o) => o
  | some v => [("result", v)]
  | none => [("result", JValue.str s)]

/-- Checks that the needle is a prefix of the haystack, character by
character. -/
def prefixAt : List Char → List Char → Bool
  | [], _ => true
  | _ :: _, [] => false
  | a :: as, b :: bs => a = b && prefixAt as bs

/-- Checks that the needle occurs contiguously somewhere in the haystack. -/
def occursIn (needle : List Char) : List Char → Bool
  | [] => needle.isEmpty
  | c :: cs => prefixAt needle (c :: cs) || occursIn needle cs

/-- Checks that the first string occurs as a substring of the second; used
to state that an error message does or does not name a given token. -/
def strOccurs (needle hay : String) : Bool :=
  occursIn needle.data hay.data

/-- Single-quote character, used when building the error messages of the
engine. -/
def squote : String := (Char.ofNat 39).toString

/-- Wraps a name in single quotes, as the f-strings of the engine do. -/
def quoted (s : String) : String := squote ++ s ++ squote

/-- Models the Python expression json.dumps applied to a dict with the
single key error, as the engine builds all its failure payloads. -/
def dumpsError (msg : String) : String :=
  "\x7b\"error\": \"" ++ msg ++ "\"\x7d"

/-- Input binding of one step input, the tagged union stored under the
inputs mapping of a step: a constant, a reference to the output of an
earlier step, or a reference to a top-level workflow parameter. -/
inductive Binding where
  | const (value : JValue)
  | ref (step : Int) (output : String)
  | param (name : String)

/-- Declared parameter of a tool configuration, with the fields the engine
reads: name and the required flag (absent fields read through dict.get
default to the empty string and false). -/
structure ParamDecl where
  name : String
  required : Bool

/-- Tool configuration as consumed by the engine: only the declared input
parameter list is read (input_parameters, with parameters as a fallback
key collapsed into the same field). -/
structure ToolCfg where
  input_parameters : List ParamDecl

/-- One workflow step: the tool name (the empty string models a missing or
empty tool field) and the ordered input binding map. -/
structure Step where
  tool : String
  inputs : List (String × Binding)

/-- Workflow definition: the ordered step list (the only field the
executor reads). -/
structure Workflow where
  steps : List Step

/-- Tool registry collaborator: configuration lookup
(ToolWorkshopInterface.load_tool_config, None when the config file is
absent) and the callable resolved by import_tool_function, which may be
absent (module or function not found) and whose application may raise
(modelled by Except.error). -/
structure Registry where
  loadToolConfig : String → Option ToolCfg
  toolFn : String → Option (JDict → Except String String)

/-- Models ToolWorkshopInterface.execute_tool: a missing callable or a
raising callable is converted into an error-shaped string; the function
always returns a string and never raises. -/
def execute_tool (reg : Registry) (name : String) (params : JDict) : String :=
  match reg.toolFn name with
  | none => "Error: Could not load function for " ++ name
  | some f =>
    match f params with
    | Except.ok r => r
    | Except.error e => "Error executing " ++ name ++ ": " ++ e

/-- Success flag that ToolWorkshopInterface.execute_tool records into the
tool history for the invocation (true only when the callable was found
and returned without raising). -/
def execute_tool_success (reg : Registry) (name : String) (params : JDict) : Bool :=
  match reg.toolFn name with
  | none => false
  | some f =>
    match f params with
    | Except.ok _ => true
    | Except.error _ => false

/-- Resolution of one input binding, from src/ui/workflows.py lines 84 to
107; the error string is the message later wrapped by `dumpsError`. -/
def resolveBinding (topParams : Option JDict) (stepOutputs : List JDict)
    (key : String) (b : Binding) : Except String JValue :=
  match b with
  | Binding.const v => Except.ok v
  | Binding.ref s o =>
    if s < 0 || (stepOutputs.length : Int) ≤ s then
      Except.error ("Invalid ref for " ++ quoted key)
    else
      Except.ok (dictGet (stepOutputs.getD s.toNat []) o)
  | Binding.param n =>
    match topParams with
    | none => Except.error ("No top-level params provided for " ++ quoted key)
    | some tp =>
      if dictHasKey tp n then Except.ok (dictGet tp n)
      else Except.error ("Top-level param " ++ quoted n ++ " not provided for " ++ quoted key)

/-- Resolves the bindings of a step in insertion order, accumulating the
argument dict; the first failing binding aborts the resolution. -/
def resolveInputs (topParams : Option JDict) (stepOutputs : List JDict) :
    List (String × Binding) → JDict → Except String JDict
  | [], acc => Except.ok acc
  | (k, b) :: rest, acc =>
    match resolveBinding topParams stepOutputs k b with
    | Except.error e => Except.error e
    | Except.ok v => resolveInputs topParams stepOutputs rest (dictSet acc k v)

/-- First declared input parameter that is required, has a truthy name and
is absent from the resolved argument dict, from src/ui/workflows.py lines
109 to 114. -/
def findMissingRequired (decls : List ParamDecl) (args : JDict) : Option String :=
  match decls.find? (fun p => p.required && p.name != "" && !dictHasKey args p.name) with
  | some p => some p.name
  | none => none

/-- Result of a workflow run: the returned triple (ok, step_results,
final_output) of _execute_workflow, extended with two instrumentation
fields that do not influence the computation: the ordered tool invocation
log and the 0-based index of the halting step. -/
structure ExecResult where
  ok : Bool
  stepResults : List JDict
  finalOutput : Option String
  calls : List (String × JDict)
  failedStep : Option Nat

/-- Sequential step loop of _execute_workflow, from src/ui/workflows.py
lines 70 to 127: per step it checks the tool name, resolves the bindings,
checks required inputs, invokes the tool and appends the parsed output;
any failure returns the outputs accumulated so far with a json error
payload as the final string. -/
def execSteps (reg : Registry) (topParams : Option JDict) :
    List Step → Nat → List JDict → List (String × JDict) → Option String → ExecResult
  | [], _, outputs, calls, fin => ⟨true, outputs, fin, calls, none⟩
  | step :: rest, idx, outputs, calls, _ =>
    if step.tool = "" then
      ⟨false, outputs, some (dumpsError ("Step " ++ toString (idx + 1) ++ " missing tool")),
        calls, some idx⟩
    else
      match resolveInputs topParams outputs step.inputs [] with
      | Except.error e => ⟨false, outputs, some (dumpsError e), calls, some idx⟩
      | Except.ok args =>
        match findMissingRequired ((reg.loadToolConfig step.tool).getD ⟨[]⟩).input_parameters args with
        | some pname =>
          ⟨false, outputs,
            some (dumpsError ("Missing required input " ++ quoted pname ++ " for tool " ++
              quoted step.tool ++ " at step " ++ toString (idx + 1))), calls, some idx⟩
        | none =>
          let r := execute_tool reg step.tool args
          execSteps reg topParams rest (idx + 1) (outputs ++ [parseStepOutput r])
            (calls ++ [(step.tool, args)]) (some r)

/-- Models WorkflowsInterface._execute_workflow: an empty step list fails
immediately with the literal payload of two braces; otherwise the step
loop runs from index 0 with fresh accumulators. -/
def execute_workflow (reg : Registry) (workflow : Workflow) (topParams : Option JDict) :
    ExecResult :=
  if workflow.steps.isEmpty then ⟨false, [], some "\x7b\x7d", [], none⟩
  else execSteps reg topParams workflow.steps 0 [] [] none

/- Helper lemmas about the resolver and the step loop. -/

theorem resolveInputs_append (tp : Option JDict) (so : List JDict)
    (pre rest : List (String × Binding)) (acc : JDict) :
    resolveInputs tp so (pre ++ rest) acc =
      match resolveInputs tp so pre acc with
      | Except.ok a => resolveInputs tp so rest a
      | Except.error e => Except.error e := by
  induction pre generalizing acc with
  | nil => rfl
  | cons kb pre ih =>
    obtain ⟨k, b⟩ := kb
    simp only [List.cons_append, resolveInputs]
    cases resolveBinding tp so k b with
    | error e => rfl
    | ok v => exact ih (dictSet acc k v)

theorem resolveBinding_badref (tp : Option JDict) (so : List JDict) (k o : String) (s : Int)
    (h : s < 0 ∨ (so.length : Int) ≤ s) :
    resolveBinding tp so k (Binding.ref s o) =
      Except.error ("Invalid ref for " ++ quoted k) := by
  have hc : (decide (s < 0) || decide ((so.length : Int) ≤ s)) = true := by
    rcases h with h | h <;> simp [h]
  simp only [resolveBinding, hc, if_true]

theorem resolveInputs_error_of_badref (tp : Option JDict) (so : List JDict)
    (inputs : List (String × Binding)) (acc : JDict) (k o : String) (s : Int)
    (hmem : (k, Binding.ref s o) ∈ inputs)
    (hs : s < 0 ∨ (so.length : Int) ≤ s) :
    ∃ e, resolveInputs tp so inputs acc = Except.error e := by
  induction inputs generalizing acc with
  | nil => cases hmem
  | cons kb rest ih =>
    obtain ⟨k0, b0⟩ := kb
    rcases List.mem_cons.mp hmem with h | h
    · cases h
      refine ⟨"Invalid ref for " ++ quoted k, ?_⟩
      simp only [resolveInputs, resolveBinding_badref tp so k o s hs]
    · simp only [resolveInputs]
      cases hb : resolveBinding tp so k0 b0 with
      | error e => exact ⟨e, rfl⟩
      | ok v => exact ih (dictSet acc k0 v) h

theorem dictGet_eq_null_of_not_hasKey (d : JDict) (k : String)
    (h : dictHasKey d k = false) : dictGet d k = JValue.null := by
  have hf : d.find? (fun p => p.fst == k) = none := by
    cases hfind : d.find? (fun p => p.fst == k) with
    | none => rfl
    | some p =>
      have hp := List.find?_some hfind
      have hpm := List.mem_of_find?_eq_some hfind
      have hall : d.any (fun p => p.fst == k) = true := List.any_eq_true.mpr ⟨p, hpm, hp⟩
      rw [dictHasKey, hall] at h
      cases h
  simp [dictGet, hf]

theorem findMissingRequired_isSome (decls : List ParamDecl) (args : JDict) (d : ParamDecl)
    (hreq : d.required = true) (hname : d.name ≠ "")
    (habs : dictHasKey args d.name = false) (hmem : d ∈ decls) :
    ∃ p, findMissingRequired decls args = some p := by
  have hd : (d.required && d.name != "" && !dictHasKey args d.name) = true := by
    simp [hreq, hname, habs]
  have : (decls.find? (fun p => p.required && p.name != "" && !dictHasKey args p.name)).isSome := by
    rw [List.find?_isSome]
    exact ⟨d, hmem, hd⟩
  obtain ⟨p, hp⟩ := Option.isSome_iff_exists.mp this
  exact ⟨p.name, by simp [findMissingRequired, hp]⟩

theorem execSteps_continue (reg : Registry) (tp : Option JDict) (step : Step)
    (rest : List Step) (idx : Nat) (outputs : List JDict) (calls : List (String × JDict))
    (fin : Option String) (args : JDict)
    (htool : step.tool ≠ "")
    (hres : resolveInputs tp outputs step.inputs [] = Except.ok args)
    (hreq : findMissingRequired ((reg.loadToolConfig step.tool).getD ⟨[]⟩).input_parameters args
      = none) :
    execSteps reg tp (step :: rest) idx outputs calls fin =
      execSteps reg tp rest (idx + 1)
        (outputs ++ [parseStepOutput (execute_tool reg step.tool args)])
        (calls ++ [(step.tool, args)]) (some (execute_tool reg step.tool args)) := by
  simp only [execSteps, hres, hreq, if_neg htool]

theorem execSteps_halt_of_resolve_error (reg : Registry) (tp : Option JDict) (step : Step)
    (rest : List Step) (idx : Nat) (outputs : List JDict) (calls : List (String × JDict))
    (fin : Option String) (e : String)
    (htool : step.tool ≠ "")
    (hres : resolveInputs tp outputs step.inputs [] = Except.error e) :
    execSteps reg tp (step :: rest) idx outputs calls fin =
      ⟨false, outputs, some (dumpsError e), calls, some idx⟩ := by
  simp only [execSteps, hres, if_neg htool]

theorem execSteps_halt_of_missing_required (reg : Registry) (tp : Option JDict) (step : Step)
    (rest : List Step) (idx : Nat) (outputs : List JDict) (calls : List (String × JDict))
    (fin : Option String) (args : JDict) (pname : String)
    (htool : step.tool ≠ "")
    (hres : resolveInputs tp outputs step.inputs [] = Except.ok args)
    (hreq : findMissingRequired ((reg.loadToolConfig step.tool).getD ⟨[]⟩).input_parameters args
      = some pname) :
    execSteps reg tp (step :: rest) idx outputs calls fin =
      ⟨false, outputs,
        some (dumpsError ("Missing required input " ++ quoted pname ++ " for tool " ++
          quoted step.tool ++ " at step " ++ toString (idx + 1))), calls, some idx⟩ := by
  simp only [execSteps, hres, hreq, if_neg htool]

theorem execSteps_halt_of_missing_tool (reg : Registry) (tp : Option JDict) (step : Step)
    (rest : List Step) (idx : Nat) (outputs : List JDict) (calls : List (String × JDict))
    (fin : Option String) (htool : step.tool = "") :
    execSteps reg tp (step :: rest) idx outputs calls fin =
      ⟨false, outputs, some (dumpsError ("Step " ++ toString (idx + 1) ++ " missing tool")),
        calls, some idx⟩ := by
  simp only [execSteps, if_pos htool]

/-- Transfers the pointwise correspondence between accumulated outputs and
the invocation log across appending one new entry to each. -/
theorem append_pointwise {α β : Type} (F : β → α) (xs : List α) (cs : List β) (x : α) (c : β)
    (hlen : xs.length = cs.length)
    (hinv : ∀ j : Nat, xs[j]? = (cs[j]?).map F)
    (hx : x = F c) :
    ∀ j : Nat, (xs ++ [x])[j]? = ((cs ++ [c])[j]?).map F := by
  intro j
  rcases lt_trichotomy j xs.length with hj | hj | hj
  · rw [List.getElem?_append_left hj, List.getElem?_append_left (by omega), hinv j]
  · subst hj
    rw [List.getElem?_concat_length, hlen, List.getElem?_concat_length, hx]
    rfl
  · rw [List.getElem?_eq_none (l := xs ++ [x]) (by simp; omega),
      List.getElem?_eq_none (l := cs ++ [c]) (by simp; omega)]
    rfl

/-- Invariant of the step loop for failing runs: with the step counter in
sync with the accumulated outputs, a run whose halting step is i returns
ok false and exactly i step results. -/
theorem execSteps_failed_spec (reg : Registry) (tp : Option JDict) :
    ∀ (steps : List Step) (idx : Nat) (outputs : List JDict) (calls : List (String × JDict))
      (fin : Option String) (i : Nat),
      outputs.length = idx →
      (execSteps reg tp steps idx outputs calls fin).failedStep = some i →
      (execSteps reg tp steps idx outputs calls fin).ok = false ∧
        (execSteps reg tp steps idx outputs calls fin).stepResults.length = i := by
  intro steps
  induction steps with
  | nil =>
    intro idx outputs calls fin i hlen h
    cases h
  | cons step rest ih =>
    intro idx outputs calls fin i hlen h
    by_cases htool : step.tool = ""
    · rw [execSteps_halt_of_missing_tool reg tp step rest idx outputs calls fin htool] at h ⊢
      obtain rfl : idx = i := by exact Option.some.inj h
      exact ⟨rfl, hlen⟩
    · cases hres : resolveInputs tp outputs step.inputs [] with
      | error e =>
        rw [execSteps_halt_of_resolve_error reg tp step rest idx outputs calls fin e htool hres]
          at h ⊢
        obtain rfl : idx = i := by exact Option.some.inj h
        exact ⟨rfl, hlen⟩
      | ok args =>
        cases hreq : findMissingRequired
            ((reg.loadToolConfig step.tool).getD ⟨[]⟩).input_parameters args with
        | some pname =>
          rw [execSteps_halt_of_missing_required reg tp step rest idx outputs calls fin args
            pname htool hres hreq] at h ⊢
          obtain rfl : idx = i := by exact Option.some.inj h
          exact ⟨rfl, hlen⟩
        | none =>
          rw [execSteps_continue reg tp step rest idx outputs calls fin args htool hres hreq]
            at h ⊢
          exact ih (idx + 1) _ _ _ i (by simp [hlen]) h

/-- Invariant of the step loop for successful runs: lengths, the pointwise
correspondence between step results and the invocation log, and the final
output being the raw result of the last invocation are preserved. -/
theorem execSteps_success_spec (reg : Registry) (tp : Option JDict) :
    ∀ (steps : List Step) (idx : Nat) (outputs : List JDict) (calls : List (String × JDict))
      (fin : Option String),
      outputs.length = calls.length →
      (∀ j : Nat, outputs[j]? =
        (calls[j]?).map (fun c => parseStepOutput (execute_tool reg c.1 c.2))) →
      fin = (calls.getLast?).map (fun c => execute_tool reg c.1 c.2) →
      (execSteps reg tp steps idx outputs calls fin).failedStep = none →
      (execSteps reg tp steps idx outputs calls fin).ok = true ∧
      (execSteps reg tp steps idx outputs calls fin).stepResults.length
        = outputs.length + steps.length ∧
      (execSteps reg tp steps idx outputs calls fin).calls.length
        = calls.length + steps.length ∧
      (∀ j : Nat, (execSteps reg tp steps idx outputs calls fin).stepResults[j]? =
        (((execSteps reg tp steps idx outputs calls fin).calls)[j]?).map
          (fun c => parseStepOutput (execute_tool reg c.1 c.2))) ∧
      (execSteps reg tp steps idx outputs calls fin).finalOutput =
        ((execSteps reg tp steps idx outputs calls fin).calls.getLast?).map
          (fun c => execute_tool reg c.1 c.2) := by
  intro steps
  induction steps with
  | nil =>
    intro idx outputs calls fin hlen hinv hfin hok
    refine ⟨rfl, ?_, ?_, hinv, hfin⟩ <;> simp [execSteps]
  | cons step rest ih =>
    intro idx outputs calls fin hlen hinv hfin hok
    by_cases htool : step.tool = ""
    · rw [execSteps_halt_of_missing_tool reg tp step rest idx outputs calls fin htool] at hok
      cases hok
    · cases hres : resolveInputs tp outputs step.inputs [] with
      | error e =>
        rw [execSteps_halt_of_resolve_error reg tp step rest idx outputs calls fin e htool hres]
          at hok
        cases hok
      | ok args =>
        cases hreq : findMissingRequired
            ((reg.loadToolConfig step.tool).getD ⟨[]⟩).input_parameters args with
        | some pname =>
          rw [execSteps_halt_of_missing_required reg tp step rest idx outputs calls fin args
            pname htool hres hreq] at hok
          cases hok
        | none =>
          rw [execSteps_continue reg tp step rest idx outputs calls fin args htool hres hreq]
            at hok ⊢
          have hrec := ih (idx + 1) (outputs ++ [parseStepOutput (execute_tool reg step.tool args)])
            (calls ++ [(step.tool, args)]) (some (execute_tool reg step.tool args))
            (by simp [hlen])
            (append_pointwise _ outputs calls _ _ hlen hinv rfl)
            (by rw [List.getLast?_concat]; rfl)
            hok
          refine ⟨hrec.1, ?_, ?_, hrec.2.2.2.1, hrec.2.2.2.2⟩
          · rw [hrec.2.1]
            simp only [List.length_append, List.length_cons, List.length_nil]
            omega
          · rw [hrec.2.2.1]
            simp only [List.length_append, List.length_cons, List.length_nil]
            omega

/- Concrete registries and workflows used by counterexamples and witnesses. -/

/-- Registry with no tool configurations and no callables. -/
def regNone : Registry := ⟨fun _ => none, fun _ => none⟩

/-- Registry where the callable of t1 cannot be loaded while t2 returns the
string done. -/
def regC1 : Registry :=
  ⟨fun _ => none, fun n => if n = "t2" then some (fun _ => Except.ok "done") else none⟩

/-- Two-step workflow invoking t1 then t2 with no bindings. -/
def wfC1 : Workflow := ⟨[⟨"t1", []⟩, ⟨"t2", []⟩]⟩

/-- Registry where tool t declares one required input named x. -/
def regC3 : Registry :=
  ⟨fun n => if n = "t" then some ⟨[⟨"x", true⟩]⟩ else none, fun _ => none⟩

/-- One-step workflow whose input loc is bound to the top-level parameter
named city. -/
def wfC5 : Workflow := ⟨[⟨"t", [("loc", Binding.param "city")]⟩]⟩

/-- Registry where tool a returns the string 1. -/
def regC7 : Registry :=
  ⟨fun _ => none, fun n => if n = "a" then some (fun _ => Except.ok "1") else none⟩

/-- Three-step workflow whose middle step carries an out-of-range reference,
so the run fails at 0-based index 1. -/
def wfC7 : Workflow := ⟨[⟨"a", []⟩, ⟨"b", [("n", Binding.ref 5 "x")]⟩, ⟨"c", []⟩]⟩

/-- Registry where the tool echo_upper returns the string HI. -/
def regC8 : Registry :=
  ⟨fun _ => none, fun n => if n = "echo_upper" then some (fun _ => Except.ok "HI") else none⟩

/-- One-step workflow binding the input text to the constant hi. -/
def wfC8 : Workflow := ⟨[⟨"echo_upper", [("text", Binding.const (JValue.str "hi"))]⟩]⟩

/-- C1 (amended): when the tool invocation of a step reports failure through an
error-shaped string — here, the callable cannot be loaded — the engine does not
halt at that step: execute_tool records the failed invocation in the tool
history (success false), the error string becomes the raw result of the step,
wrapped by the output parsing, and the run continues with the remaining
steps. -/
theorem tool_error_continues (reg : Registry) (tp : Option JDict) (step : Step)
    (rest : List Step) (idx : Nat) (outputs : List JDict) (calls : List (String × JDict))
    (fin : Option String) (args : JDict)
    (htool : step.tool ≠ "")
    (hres : resolveInputs tp outputs step.inputs [] = Except.ok args)
    (hreq : findMissingRequired ((reg.loadToolConfig step.tool).getD ⟨[]⟩).input_parameters args
      = none)
    (hfn : reg.toolFn step.tool = none) :
    execute_tool reg step.tool args = "Error: Could not load function for " ++ step.tool ∧
    execute_tool_success reg step.tool args = false ∧
    execSteps reg tp (step :: rest) idx outputs calls fin =
      execSteps reg tp rest (idx + 1)
        (outputs ++ [parseStepOutput ("Error: Could not load function for " ++ step.tool)])
        (calls ++ [(step.tool, args)])
        (some ("Error: Could not load function for " ++ step.tool)) := by
  have he : execute_tool reg step.tool args
      = "Error: Could not load function for " ++ step.tool := by
    simp [execute_tool, hfn]
  refine ⟨he, by simp [execute_tool_success, hfn], ?_⟩
  rw [execSteps_continue reg tp step rest idx outputs calls fin args htool hres hreq, he]

/-- C1 counterexample: the tool t1 of the first step cannot be loaded, so its
invocation reports failure through an error-shaped string, yet the run does not
halt: it returns ok true, the tool of the later step is invoked, and no step is
the halting step; the claim that the run halts with ok false and later tools
are never invoked is false on this input. -/
theorem tool_error_continues_cex :
    execute_tool regC1 "t1" [] = "Error: Could not load function for t1" ∧
    (execute_workflow regC1 wfC1 none).ok = true ∧
    (execute_workflow regC1 wfC1 none).calls.map Prod.fst = ["t1", "t2"] ∧
    (execute_workflow regC1 wfC1 none).failedStep = none :=
  ⟨rfl, rfl, rfl, rfl⟩

/-- C1 witness: the amended theorem applied to the concrete failing tool t1. -/
theorem tool_error_continues_witness :
    execute_tool regC1 "t1" [] = "Error: Could not load function for " ++ "t1" ∧
    execute_tool_success regC1 "t1" [] = false ∧
    execSteps regC1 none [⟨"t1", []⟩, ⟨"t2", []⟩] 0 [] [] none =
      execSteps regC1 none [⟨"t2", []⟩] (0 + 1)
        ([] ++ [parseStepOutput ("Error: Could not load function for " ++ "t1")])
        ([] ++ [("t1", [])]) (some ("Error: Could not load function for " ++ "t1")) :=
  tool_error_continues regC1 none ⟨"t1", []⟩ [⟨"t2", []⟩] 0 [] [] none []
    (by decide) rfl rfl rfl

/-- C2: the step output mapping is computed from the raw tool result exactly as
the code does: a string parsing as a JSON object stands as is; a string parsing
as a non-object JSON value v yields the mapping result v, so the string 42
yields result 42; an unparseable string s yields result s, so hello yields
result hello. -/
theorem step_output_parsing :
    (∀ s o, json_loads s = some (JValue.obj o) → parseStepOutput s = o) ∧
    (∀ s v, json_loads s = some v → (∀ o, v ≠ JValue.obj o) →
      parseStepOutput s = [("result", v)]) ∧
    (∀ s, json_loads s = none → parseStepOutput s = [("result", JValue.str s)]) ∧
    parseStepOutput "42" = [("result", JValue.num 42)] ∧
    parseStepOutput "hello" = [("result", JValue.str "hello")] ∧
    parseStepOutput "\x7b\"a\":1\x7d" = [("a", JValue.num 1)] := by
  refine ⟨?_, ?_, ?_, rfl, rfl, rfl⟩
  · intro s o h
    simp [parseStepOutput, h]
  · intro s v h hno
    cases v with
    | obj o => exact absurd rfl (hno o)
    | null => simp [parseStepOutput, h]
    | bool b => simp [parseStepOutput, h]
    | num n => simp [parseStepOutput, h]
    | str t => simp [parseStepOutput, h]
    | arr xs => simp [parseStepOutput, h]
  · intro s h
    simp [parseStepOutput, h]

/-- C2 witness: the non-object case applied to the concrete string true. -/
theorem step_output_parsing_witness :
    parseStepOutput "true" = [("result", JValue.bool true)] :=
  step_output_parsing.2.1 "true" (JValue.bool true) rfl (fun _ h => JValue.noConfusion h)

/-- C3: when a step whose tool configuration declares a required input
parameter (with a nonempty name, as the parameter data model requires) has
resolved all its bindings to an argument dict lacking that name, the run halts
at that step: ok false, an error payload naming the 1-based step index, the
tool name and a missing required parameter name, and neither this tool nor any
later tool is invoked, the invocation log staying unchanged. -/
theorem missing_required_input_halts (reg : Registry) (tp : Option JDict) (step : Step)
    (rest : List Step) (idx : Nat) (outputs : List JDict) (calls : List (String × JDict))
    (fin : Option String) (args : JDict) (d : ParamDecl)
    (htool : step.tool ≠ "")
    (hres : resolveInputs tp outputs step.inputs [] = Except.ok args)
    (hmem : d ∈ ((reg.loadToolConfig step.tool).getD ⟨[]⟩).input_parameters)
    (hreq : d.required = true) (hname : d.name ≠ "")
    (habs : dictHasKey args d.name = false) :
    ∃ pname,
      findMissingRequired ((reg.loadToolConfig step.tool).getD ⟨[]⟩).input_parameters args
        = some pname ∧
      execSteps reg tp (step :: rest) idx outputs calls fin =
        ⟨false, outputs,
          some (dumpsError ("Missing required input " ++ quoted pname ++ " for tool " ++
            quoted step.tool ++ " at step " ++ toString (idx + 1))), calls, some idx⟩ := by
  obtain ⟨p, hp⟩ := findMissingRequired_isSome _ args d hreq hname habs hmem
  exact ⟨p, hp,
    execSteps_halt_of_missing_required reg tp step rest idx outputs calls fin args p htool hres hp⟩

/-- C3 witness: the theorem applied to a one-step workflow whose tool t
requires the parameter x and receives no binding for it. -/
theorem missing_required_input_halts_witness :
    ∃ pname,
      findMissingRequired ((regC3.loadToolConfig "t").getD ⟨[]⟩).input_parameters []
        = some pname ∧
      execSteps regC3 none [⟨"t", []⟩] 0 [] [] none =
        ⟨false, [],
          some (dumpsError ("Missing required input " ++ quoted pname ++ " for tool " ++
            quoted "t" ++ " at step " ++ toString (0 + 1))), [], some 0⟩ :=
  missing_required_input_halts regC3 none ⟨"t", []⟩ [] 0 [] [] none [] ⟨"x", true⟩
    (by decide) rfl (List.mem_singleton.mpr rfl) rfl (by decide) rfl

/-- Invariant of the step loop for a bad reference: when some remaining step
at relative position i carries a reference binding whose index is negative or
at least the absolute position of that step, the loop fails at some step no
later than i, having invoked exactly one tool per completed earlier step. -/
theorem execSteps_badref_fails (reg : Registry) (tp : Option JDict) :
    ∀ (steps : List Step) (idx : Nat) (outputs : List JDict) (calls : List (String × JDict))
      (fin : Option String) (i : Nat) (st : Step) (k o : String) (s : Int),
      steps[i]? = some st →
      (k, Binding.ref s o) ∈ st.inputs →
      (s < 0 ∨ ((outputs.length + i : Nat) : Int) ≤ s) →
      ∃ j, j ≤ i ∧
        (execSteps reg tp steps idx outputs calls fin).failedStep = some (idx + j) ∧
        (execSteps reg tp steps idx outputs calls fin).ok = false ∧
        (execSteps reg tp steps idx outputs calls fin).stepResults.length
          = outputs.length + j ∧
        (execSteps reg tp steps idx outputs calls fin).calls.length = calls.length + j := by
  intro steps
  induction steps with
  | nil =>
    intro idx outputs calls fin i st k o s hget hmem hs
    simp at hget
  | cons step rest ih =>
    intro idx outputs calls fin i st k o s hget hmem hs
    by_cases htool : step.tool = ""
    · refine ⟨0, Nat.zero_le _, ?_⟩
      rw [execSteps_halt_of_missing_tool reg tp step rest idx outputs calls fin htool]
      exact ⟨rfl, rfl, by simp, by simp⟩
    · cases hres : resolveInputs tp outputs step.inputs [] with
      | error e =>
        refine ⟨0, Nat.zero_le _, ?_⟩
        rw [execSteps_halt_of_resolve_error reg tp step rest idx outputs calls fin e htool hres]
        exact ⟨rfl, rfl, by simp, by simp⟩
      | ok args =>
        cases hreq : findMissingRequired
            ((reg.loadToolConfig step.tool).getD ⟨[]⟩).input_parameters args with
        | some pname =>
          refine ⟨0, Nat.zero_le _, ?_⟩
          rw [execSteps_halt_of_missing_required reg tp step rest idx outputs calls fin args
            pname htool hres hreq]
          exact ⟨rfl, rfl, by simp, by simp⟩
        | none =>
          cases i with
          | zero =>
            obtain rfl : step = st := by simpa using hget
            obtain ⟨e, he⟩ := resolveInputs_error_of_badref tp outputs step.inputs [] k o s hmem
              (by rcases hs with h | h
                  · exact Or.inl h
                  · exact Or.inr (by simpa using h))
            rw [he] at hres
            cases hres
          | succ i2 =>
            have hget2 : rest[i2]? = some st := by simpa using hget
            have hs2 : s < 0 ∨
                (((outputs ++ [parseStepOutput (execute_tool reg step.tool args)]).length + i2 :
                  Nat) : Int) ≤ s := by
              rcases hs with h | h
              · exact Or.inl h
              · refine Or.inr ?_
                have harith : (outputs ++
                    [parseStepOutput (execute_tool reg step.tool args)]).length + i2
                    = outputs.length + (i2 + 1) := by
                  simp
                  omega
                rw [harith]
                exact h
            obtain ⟨j2, hj2, hfs, hok, hsr, hcl⟩ := ih (idx + 1)
              (outputs ++ [parseStepOutput (execute_tool reg step.tool args)])
              (calls ++ [(step.tool, args)]) (some (execute_tool reg step.tool args))
              i2 st k o s hget2 hmem hs2
            rw [execSteps_continue reg tp step rest idx outputs calls fin args htool hres hreq]
            refine ⟨j2 + 1, by omega, ?_, hok, ?_, ?_⟩
            · rw [hfs]
              congr 1
              omega
            · rw [hsr]
              simp
              omega
            · rw [hcl]
              simp
              omega

/-- C4: any run of a workflow whose step at 0-based position i carries a
reference binding with step index negative or at least i returns ok false,
never invokes the tool of step i — the invocation log holds exactly one entry
per step strictly before the failing step, which is no later than i — and the
step results are only the outputs of steps strictly before i. -/
theorem invalid_ref_fails_run (reg : Registry) (wf : Workflow) (tp : Option JDict)
    (i : Nat) (st : Step) (k o : String) (s : Int)
    (hget : wf.steps[i]? = some st)
    (hmem : (k, Binding.ref s o) ∈ st.inputs)
    (hs : s < 0 ∨ (i : Int) ≤ s) :
    (execute_workflow reg wf tp).ok = false ∧
    ∃ j, j ≤ i ∧ (execute_workflow reg wf tp).failedStep = some j ∧
      (execute_workflow reg wf tp).stepResults.length = j ∧
      (execute_workflow reg wf tp).calls.length = j := by
  have hemp : ¬ (wf.steps.isEmpty = true) := by
    intro habs
    rw [List.isEmpty_iff.mp habs] at hget
    simp at hget
  unfold execute_workflow
  rw [if_neg hemp]
  obtain ⟨j, hj, hfs, hok, hsr, hcl⟩ := execSteps_badref_fails reg tp wf.steps 0 [] [] none
    i st k o s hget hmem (by simpa using hs)
  exact ⟨hok, j, hj, by simpa using hfs, by simpa using hsr, by simpa using hcl⟩

/-- C4 witness: the theorem applied to the three-step workflow whose step at
position 1 refers to step 5, far beyond its own position. -/
theorem invalid_ref_fails_run_witness :
    (execute_workflow regC7 wfC7 none).ok = false ∧
    ∃ j, j ≤ 1 ∧ (execute_workflow regC7 wfC7 none).failedStep = some j ∧
      (execute_workflow regC7 wfC7 none).stepResults.length = j ∧
      (execute_workflow regC7 wfC7 none).calls.length = j :=
  invalid_ref_fails_run regC7 wfC7 none 1 ⟨"b", [("n", Binding.ref 5 "x")]⟩ "n" "x" 5
    rfl (List.mem_singleton.mpr rfl) (Or.inr (by decide))

/-- C5 counterexample: with no top-level parameter map supplied at all, the run
halts without invoking the tool, but the error payload names the step input key
loc and does not contain the missing parameter name city anywhere, refuting the
claim that the error names the missing parameter in this case. -/
theorem missing_top_param_name_cex :
    (execute_workflow regNone wfC5 none).ok = false ∧
    (execute_workflow regNone wfC5 none).finalOutput =
      some (dumpsError ("No top-level params provided for " ++ quoted "loc")) ∧
    strOccurs "city" (dumpsError ("No top-level params provided for " ++ quoted "loc"))
      = false ∧
    (execute_workflow regNone wfC5 none).calls = [] :=
  ⟨rfl, rfl, rfl, rfl⟩

/-- C5 (amended): for a step with a top-level parameter binding reached after
its earlier bindings resolved, the run halts with ok false without invoking the
tool of the step; when no top-level map was supplied at all the error names the
step input key and reports that no top-level params were provided, and when a
map was supplied but lacks the name the error names the missing parameter. -/
theorem missing_top_param_halts (reg : Registry) (tp : Option JDict) (step : Step)
    (rest : List Step) (idx : Nat) (outputs : List JDict) (calls : List (String × JDict))
    (fin : Option String) (pre post : List (String × Binding)) (k n : String) (acc : JDict)
    (htool : step.tool ≠ "")
    (hin : step.inputs = pre ++ (k, Binding.param n) :: post)
    (hpre : resolveInputs tp outputs pre [] = Except.ok acc) :
    (tp = none →
      execSteps reg tp (step :: rest) idx outputs calls fin =
        ⟨false, outputs,
          some (dumpsError ("No top-level params provided for " ++ quoted k)),
          calls, some idx⟩) ∧
    (∀ m, tp = some m → dictHasKey m n = false →
      execSteps reg tp (step :: rest) idx outputs calls fin =
        ⟨false, outputs,
          some (dumpsError ("Top-level param " ++ quoted n ++ " not provided for " ++ quoted k)),
          calls, some idx⟩) := by
  constructor
  · intro htp
    subst htp
    have hres : resolveInputs none outputs step.inputs [] =
        Except.error ("No top-level params provided for " ++ quoted k) := by
      rw [hin, resolveInputs_append, hpre]
      simp only [resolveInputs, resolveBinding]
    exact execSteps_halt_of_resolve_error reg none step rest idx outputs calls fin _ htool hres
  · intro m htp habs
    subst htp
    have hres : resolveInputs (some m) outputs step.inputs [] =
        Except.error ("Top-level param " ++ quoted n ++ " not provided for " ++ quoted k) := by
      rw [hin, resolveInputs_append, hpre]
      simp only [resolveInputs, resolveBinding, habs]
      rfl
    exact execSteps_halt_of_resolve_error reg (some m) step rest idx outputs calls fin _ htool hres

/-- C5 witness: the amended theorem applied to a step whose input loc is bound
to the top-level parameter city while no map is supplied. -/
theorem missing_top_param_halts_witness :
    execSteps regNone none [⟨"t", [("loc", Binding.param "city")]⟩] 0 [] [] none =
      ⟨false, [],
        some (dumpsError ("No top-level params provided for " ++ quoted "loc")),
        [], some 0⟩ :=
  (missing_top_param_halts regNone none ⟨"t", [("loc", Binding.param "city")]⟩ [] 0 [] [] none
    [] [] "loc" "city" [] (by decide) rfl rfl).1 rfl

/-- C6 (amended): a workflow whose step list is empty immediately fails: ok
false, an empty step result list, an empty invocation log, and the returned
payload is the two-character empty-object string, which is not a message
saying no steps defined. -/
theorem empty_steps_fails (reg : Registry) (tp : Option JDict) :
    execute_workflow reg ⟨[]⟩ tp = ⟨false, [], some "\x7b\x7d", [], none⟩ := rfl

/-- C6 counterexample: on an empty workflow the run fails with the empty-object
payload, and that payload does not contain the words of the claimed error, so
the claimed error payload is wrong. -/
theorem empty_steps_payload_cex :
    (execute_workflow regNone ⟨[]⟩ none).ok = false ∧
    (execute_workflow regNone ⟨[]⟩ none).stepResults = [] ∧
    (execute_workflow regNone ⟨[]⟩ none).calls = [] ∧
    (execute_workflow regNone ⟨[]⟩ none).finalOutput = some "\x7b\x7d" ∧
    strOccurs "no steps defined" "\x7b\x7d" = false :=
  ⟨rfl, rfl, rfl, rfl, rfl⟩

/-- C7: whenever a run fails at the step of 0-based position i, it returns ok
false and the step result list holds exactly the outputs of the i earlier
steps, never fewer and never entries for the failing or later steps. -/
theorem failed_run_keeps_results (reg : Registry) (wf : Workflow) (tp : Option JDict)
    (i : Nat) (h : (execute_workflow reg wf tp).failedStep = some i) :
    (execute_workflow reg wf tp).ok = false ∧
    (execute_workflow reg wf tp).stepResults.length = i := by
  by_cases hempty : wf.steps.isEmpty
  · unfold execute_workflow at h
    rw [if_pos hempty] at h
    cases h
  · unfold execute_workflow at h ⊢
    rw [if_neg hempty] at h ⊢
    exact execSteps_failed_spec reg tp wf.steps 0 [] [] none i rfl h

/-- C7 witness: a three-step workflow failing at 0-based index 1 (step 2 in the
1-based labels of the engine) returns exactly one step result. -/
theorem failed_run_keeps_results_witness :
    (execute_workflow regC7 wfC7 none).failedStep = some 1 ∧
    (execute_workflow regC7 wfC7 none).ok = false ∧
    (execute_workflow regC7 wfC7 none).stepResults.length = 1 :=
  ⟨rfl, (failed_run_keeps_results regC7 wfC7 none 1 rfl).1,
    (failed_run_keeps_results regC7 wfC7 none 1 rfl).2⟩

/-- C8: a run of a nonempty workflow in which every step completes returns ok
true, one parsed output per invocation in order, and a final output equal to
the raw string result of the last invoked tool. -/
theorem success_run_shape (reg : Registry) (wf : Workflow) (tp : Option JDict)
    (hne : wf.steps ≠ [])
    (hok : (execute_workflow reg wf tp).failedStep = none) :
    (execute_workflow reg wf tp).ok = true ∧
    (execute_workflow reg wf tp).stepResults.length = wf.steps.length ∧
    (execute_workflow reg wf tp).calls.length = wf.steps.length ∧
    (∀ j : Nat, (execute_workflow reg wf tp).stepResults[j]? =
      (((execute_workflow reg wf tp).calls)[j]?).map
        (fun c => parseStepOutput (execute_tool reg c.1 c.2))) ∧
    ∃ c, (execute_workflow reg wf tp).calls.getLast? = some c ∧
      (execute_workflow reg wf tp).finalOutput = some (execute_tool reg c.1 c.2) := by
  have hemp : ¬ (wf.steps.isEmpty = true) := by
    simpa [List.isEmpty_iff] using hne
  unfold execute_workflow at hok ⊢
  rw [if_neg hemp] at hok ⊢
  have hrec := execSteps_success_spec reg tp wf.steps 0 [] [] none rfl
    (by intro j; simp) rfl hok
  refine ⟨hrec.1, by simpa using hrec.2.1, by simpa using hrec.2.2.1, hrec.2.2.2.1, ?_⟩
  have hlen : (execSteps reg tp wf.steps 0 [] [] none).calls.length = wf.steps.length := by
    simpa using hrec.2.2.1
  have hne2 : (execSteps reg tp wf.steps 0 [] [] none).calls ≠ [] := by
    intro hnil
    rw [hnil] at hlen
    exact hne (List.length_eq_zero.mp hlen.symm)
  obtain ⟨c, hc⟩ := Option.isSome_iff_exists.mp (List.getLast?_isSome.mpr hne2)
  refine ⟨c, hc, ?_⟩
  rw [hrec.2.2.2.2, hc]
  rfl

/-- C8 witness: the one-step workflow of Scenario A, whose tool echo_upper
returns HI, yields ok true and final output HI; the theorem applied to it. -/
theorem success_run_shape_witness :
    (execute_workflow regC8 wfC8 none).finalOutput = some "HI" ∧
    ((execute_workflow regC8 wfC8 none).ok = true ∧
     (execute_workflow regC8 wfC8 none).stepResults.length = wfC8.steps.length ∧
     (execute_workflow regC8 wfC8 none).calls.length = wfC8.steps.length ∧
     (∀ j : Nat, (execute_workflow regC8 wfC8 none).stepResults[j]? =
       (((execute_workflow regC8 wfC8 none).calls)[j]?).map
         (fun c => parseStepOutput (execute_tool regC8 c.1 c.2))) ∧
     ∃ c, (execute_workflow regC8 wfC8 none).calls.getLast? = some c ∧
       (execute_workflow regC8 wfC8 none).finalOutput = some (execute_tool regC8 c.1 c.2)) :=
  ⟨rfl, success_run_shape regC8 wfC8 none (List.cons_ne_nil _ _) rfl⟩

/-- C9: a reference binding whose step index is a valid earlier position but
whose output name is absent from that step output mapping resolves to the
Python None, modelled as the null value, with no error; and any step whose
bindings all resolve and whose required check passes does invoke its tool and
continue with the remaining steps. -/
theorem missing_ref_output_null (tp : Option JDict) (outputs : List JDict) (k o : String)
    (s : Int) (h0 : 0 ≤ s) (hlt : s < (outputs.length : Int))
    (habs : dictHasKey (outputs.getD s.toNat []) o = false) :
    resolveBinding tp outputs k (Binding.ref s o) = Except.ok JValue.null ∧
    (∀ reg step rest idx calls fin args, step.tool ≠ "" →
      resolveInputs tp outputs step.inputs [] = Except.ok args →
      findMissingRequired ((reg.loadToolConfig step.tool).getD ⟨[]⟩).input_parameters args
        = none →
      execSteps reg tp (step :: rest) idx outputs calls fin =
        execSteps reg tp rest (idx + 1)
          (outputs ++ [parseStepOutput (execute_tool reg step.tool args)])
          (calls ++ [(step.tool, args)]) (some (execute_tool reg step.tool args))) := by
  constructor
  · have hc : (decide (s < 0) || decide ((outputs.length : Int) ≤ s)) = false := by
      simp only [Bool.or_eq_false_iff, decide_eq_false_iff_not, not_lt, not_le]
      exact ⟨h0, hlt⟩
    simp only [resolveBinding, hc, Bool.false_eq_true, if_false]
    rw [dictGet_eq_null_of_not_hasKey _ _ habs]
  · intro reg step rest idx calls fin args htool hres hreq
    exact execSteps_continue reg tp step rest idx outputs calls fin args htool hres hreq

/-- C9 witness: the theorem applied to a reference to step 0 whose output
mapping lacks the requested key. -/
theorem missing_ref_output_null_witness :
    resolveBinding none [[("sum", JValue.num 5)]] "n" (Binding.ref 0 "missing")
      = Except.ok JValue.null ∧
    (∀ reg step rest idx calls fin args, step.tool ≠ "" →
      resolveInputs none [[("sum", JValue.num 5)]] step.inputs [] = Except.ok args →
      findMissingRequired ((reg.loadToolConfig step.tool).getD ⟨[]⟩).input_parameters args
        = none →
      execSteps reg none (step :: rest) idx [[("sum", JValue.num 5)]] calls fin =
        execSteps reg none rest (idx + 1)
          ([[("sum", JValue.num 5)]] ++ [parseStepOutput (execute_tool reg step.tool args)])
          (calls ++ [(step.tool, args)]) (some (execute_tool reg step.tool args))) :=
  missing_ref_output_null none [[("sum", JValue.num 5)]] "n" "missing" 0
    (by decide) (by decide) rfl

end Workflows
